import Mathlib

/-!
Verification of the chord-progression generator (`src/main_3.py`).

The development shallowly embeds the music logic of the program:
the static tables (`DIATONIC_MAJOR`, `COMMON_PATTERNS`, `ROMAN_TO_INDEX`,
`NOTE_TO_MIDI`), the roman-numeral resolver `roman_to_chord`, the
progression generator `generate_progression`, the chord parser
`parse_chord_name`, the voicing engine `chord_to_midi_notes`, and an
event-trace model of the playback loop `play_progression_loop` together
with the `on_stop` handler.

Python dictionaries are modelled as association lists with `List.lookup`
(all keys are distinct, so lookup agrees with dict access).  Python's
substring test `x in s` is modelled by `containsSub`.  Python code that
raises (indexing `chord_name[0]` on an empty string) is modelled with
`Option`: `none` marks a raised `IndexError`.  MIDI side effects are
modelled as event lists; sleeps carry no events.  The random pattern
choice of `random.choice` is modelled by an arbitrary index parameter,
and the live Tk variables read during playback are modelled as functions
of the number of per-chord reads performed so far.
-/

/-- Table of diatonic chords per major key (`DIATONIC_MAJOR['C']` row,
shared with the fallback in `roman_to_chord`). -/
def diatonicC : List String := ["C", "Dm", "Em", "F", "G", "Am", "Bdim"]

/-- `DIATONIC_MAJOR` from the source: key name to its seven diatonic chords. -/
def DIATONIC_MAJOR : List (String × List String) :=
  [("C", diatonicC),
   ("G", ["G", "Am", "Bm", "C", "D", "Em", "F#dim"]),
   ("D", ["D", "Em", "F#m", "G", "A", "Bm", "C#dim"]),
   ("A", ["A", "Bm", "C#m", "D", "E", "F#m", "G#dim"]),
   ("E", ["E", "F#m", "G#m", "A", "B", "C#m", "D#dim"]),
   ("B", ["B", "C#m", "D#m", "E", "F#", "G#m", "A#dim"]),
   ("F#", ["F#", "G#m", "A#m", "B", "C#", "D#m", "E#dim"]),
   ("Gb", ["Gb", "Abm", "Bbm", "Cb", "Db", "Ebm", "Fdim"]),
   ("F", ["F", "Gm", "Am", "Bb", "C", "Dm", "Edim"]),
   ("Bb", ["Bb", "Cm", "Dm", "Eb", "F", "Gm", "Adim"]),
   ("Eb", ["Eb", "Fm", "Gm", "Ab", "Bb", "Cm", "Ddim"]),
   ("Ab", ["Ab", "Bbm", "Cm", "Db", "Eb", "Fm", "Gdim"])]

/-- The pattern set of the `'Pop'` style (also the fallback set of
`generate_progression` for unknown styles). -/
def popPatterns : List (List String) :=
  [["I", "V", "vi", "IV"], ["I", "vi", "IV", "V"], ["vi", "IV", "I", "V"]]

/-- `COMMON_PATTERNS` from the source: style name to its list of
roman-numeral patterns. -/
def COMMON_PATTERNS : List (String × List (List String)) :=
  [("Pop", popPatterns),
   ("Rock", [["I", "IV", "V", "IV"], ["I", "V", "I", "V"]]),
   ("Ballad", [["I", "vi", "IV", "V"], ["I", "V", "vi", "IV"]]),
   ("Blues", [["I", "IV", "I", "V"], ["I", "I", "IV", "I", "V", "IV", "I", "V"]])]

/-- `ROMAN_TO_INDEX` from the source: roman-numeral token to scale-degree
index.  Note that the table holds the spellings exactly as written in the
source; in particular `i`, `iv`, `v` and `vii` are absent, and the entry
for `vii°` still carries the degree mark. -/
def ROMAN_TO_INDEX : List (String × Nat) :=
  [("I", 0), ("ii", 1), ("II", 1), ("iii", 2), ("III", 2), ("IV", 3),
   ("V", 4), ("vi", 5), ("VI", 5), ("vii°", 6), ("VII", 6)]

/-- `NOTE_TO_MIDI` from the source: root note name to MIDI pitch. -/
def NOTE_TO_MIDI : List (String × Int) :=
  [("C", 60), ("C#", 61), ("Db", 61), ("D", 62), ("D#", 63), ("Eb", 63),
   ("E", 64), ("F", 65), ("F#", 66), ("Gb", 66), ("G", 67), ("G#", 68),
   ("Ab", 68), ("A", 69), ("A#", 70), ("Bb", 70), ("B", 71)]

/-- Boolean test that `needle` begins `hay` (character lists). -/
def beginsWith : List Char → List Char → Bool
  | [], _ => true
  | _ :: _, [] => false
  | a :: as, b :: bs => a == b && beginsWith as bs

/-- Python's substring containment `needle in s`. -/
def containsSub (needle : List Char) (s : String) : Bool :=
  s.data.tails.any fun t => beginsWith needle t

/-- Python's `roman.replace('°', '')`: remove every degree mark. -/
def stripDegreeMark (s : String) : String :=
  ⟨s.data.filter fun c => c != '°'⟩

/-- Python's `roman.endswith('7')`. -/
def endsWith7 (s : String) : Bool :=
  s.data.getLast? == some '7'

/-- Python's `roman[:-1]`. -/
def dropLastStr (s : String) : String :=
  ⟨s.data.dropLast⟩

/-- The preprocessing of `roman_to_chord`: strip the degree mark, then
split off a trailing `'7'`.  Returns (seventh flag, remaining token). -/
def romanToken (roman : String) : Bool × String :=
  let r := stripDegreeMark roman
  if endsWith7 r then (true, dropLastStr r) else (false, r)

/-- `roman_to_chord` from the source.  The source's final branch reads
`if add7: (if 'm' in base: return base+'7' else: return base+'7')`; both
inner branches append `'7'`, so they are collapsed here. -/
def roman_to_chord (roman key : String) : String :=
  let p := romanToken roman
  let idx := (ROMAN_TO_INDEX.lookup p.2).getD 0
  let chords := (DIATONIC_MAJOR.lookup key).getD diatonicC
  let base := chords.getD idx ""
  if p.1 then base ++ "7" else base

/-- `COMMON_PATTERNS.get(style, COMMON_PATTERNS['Pop'])`. -/
def patternsFor (style : String) : List (List String) :=
  (COMMON_PATTERNS.lookup style).getD popPatterns

/-- The `while len(prog) < bars` loop of `generate_progression`,
appending `roman_to_chord(pattern[i % len(pattern)], key)` each round. -/
def genAux (key : String) (pattern : List String) : Nat → Nat → List String → List String
  | 0, _, acc => acc
  | fuel + 1, i, acc =>
      genAux key pattern fuel (i + 1)
        (acc ++ [roman_to_chord (pattern.getD (i % pattern.length) "") key])

/-- `generate_progression` from the source.  `random.choice(patterns)` is
modelled by the index `pick` (reduced mod the number of patterns); every
index in range is a possible random outcome. -/
def generate_progression (key style : String) (bars : Nat) (pick : Nat) : List String :=
  let patterns := patternsFor style
  let pattern := patterns.getD (pick % patterns.length) []
  genAux key pattern bars 0 []

/-- `parse_chord_name` from the source.  On the empty string the Python
code raises `IndexError` at `chord_name[0]`; that outcome is `none`. -/
def parse_chord_name (chord_name : String) : Option (String × String) :=
  match chord_name.data with
  | [] => none
  | [c] => some (⟨[c]⟩, "")
  | c1 :: c2 :: rest =>
      if c2 = '#' ∨ c2 = 'b' then some (⟨[c1, c2]⟩, ⟨rest⟩)
      else some (⟨[c1]⟩, ⟨c2 :: rest⟩)

/-- The interval-selection branch of `chord_to_midi_notes`, verbatim from
the source's if/elif chain. -/
def selectIntervals (ctype : String) (root_note : Int) : List Int :=
  if containsSub ['m'] ctype && !containsSub ['m', 'a', 'j'] ctype
      && !containsSub ['7'] ctype then
    [root_note, root_note + 3, root_note + 7]
  else if containsSub ['7'] ctype then
    if containsSub ['m', 'a', 'j'] ctype || containsSub ['M'] ctype then
      [root_note, root_note + 4, root_note + 7, root_note + 11]
    else if containsSub ['m'] ctype then
      [root_note, root_note + 3, root_note + 7, root_note + 10]
    else
      [root_note, root_note + 4, root_note + 7, root_note + 10]
  else
    [root_note, root_note + 4, root_note + 7]

/-- Interval selection as claim C3 words it: its first branch tests only
"suffix contains 'm' and no '7'", without the source's additional
exclusion of 'maj'. -/
def selectIntervalsClaimed (ctype : String) (root_note : Int) : List Int :=
  if containsSub ['m'] ctype && !containsSub ['7'] ctype then
    [root_note, root_note + 3, root_note + 7]
  else if containsSub ['7'] ctype then
    if containsSub ['m', 'a', 'j'] ctype || containsSub ['M'] ctype then
      [root_note, root_note + 4, root_note + 7, root_note + 11]
    else if containsSub ['m'] ctype then
      [root_note, root_note + 3, root_note + 7, root_note + 10]
    else
      [root_note, root_note + 4, root_note + 7, root_note + 10]
  else
    [root_note, root_note + 4, root_note + 7]

/-- One round of the inversion loop: `note = notes.pop(0) + 12;
notes.append(note)`, guarded by `if notes:`. -/
def invertOnce : List Int → List Int
  | [] => []
  | n :: rest => rest ++ [n + 12]

/-- `for _ in range(inversion)` applied to `invertOnce`. -/
def applyInversion : Nat → List Int → List Int
  | 0, notes => notes
  | k + 1, notes => applyInversion k (invertOnce notes)

/-- The final clamp of `chord_to_midi_notes`: `max(0, min(127, n))`. -/
def clampPitch (n : Int) : Int :=
  max 0 (min 127 n)

/-- `chord_to_midi_notes` from the source: parse, look up the root with
fallback 60, add the (already scaled) octave argument, select intervals,
apply the inversion rotation, and clamp each pitch into [0, 127] last. -/
def chord_to_midi_notes (chord_name : String) (octave : Int) (inversion : Nat) :
    Option (List Int) :=
  (parse_chord_name chord_name).map fun rc =>
    let root_note : Int := (NOTE_TO_MIDI.lookup rc.1).getD 60 + octave
    (applyInversion inversion (selectIntervals rc.2 root_note)).map clampPitch

/-- The spec's `voice(chord, octaveShift, inversion)`: both call sites of
the engine (`safe_play_chord` and `play_progression_loop`) pass
`octave=self.octave_var.get()*12`, so an octave shift of `s` reaches the
engine as `s*12`. -/
def voice (chord : String) (octaveShift : Int) (inversion : Nat) : Option (List Int) :=
  chord_to_midi_notes chord (octaveShift * 12) inversion

/-- The base pitch class of a parsed root: `NOTE_TO_MIDI.get(root, 60)`. -/
def rootPitchOf (root : String) : Int :=
  (NOTE_TO_MIDI.lookup root).getD 60

/-- MIDI/UI events emitted by the playback loop and the stop handler. -/
inductive MEv where
  | highlight (i : Nat)
  | noteOn (p : Int) (v : Nat)
  | noteOff (p : Int)
  | allOff
  | clearHighlight
  | setReady
deriving DecidableEq

/-- How one pass of the `for i, chord in enumerate(progression)` loop
ends: the list was exhausted, the flag check broke out, or
`chord_to_midi_notes` raised (empty chord name). -/
inductive PassExit where
  | done
  | flagBreak
  | err
deriving DecidableEq

/-- The arpeggio inner loop: per note, check `play_flag` (consuming one
read at index `f`), then emit note-on and note-off.  A failed check
breaks out with no event for that note. -/
def arpEvents (vel : Nat) (flag : Nat → Bool) : List Int → Nat → List MEv × Nat
  | [], f => ([], f)
  | n :: rest, f =>
      if flag f then
        let r := arpEvents vel flag rest (f + 1)
        (MEv.noteOn n vel :: MEv.noteOff n :: r.1, r.2)
      else ([], f + 1)

/-- One pass over the progression (the body of the `while` loop in
`play_progression_loop`).  `t` counts the per-chord reads of the live
`octave_var`/`inversion_var` Tk variables (line 488 of the source reads
them anew for every chord); `f` counts `play_flag` reads.  Returns the
emitted events, the final counters, and how the pass ended. -/
def passAux (vel : Nat) (block : Bool) (flag : Nat → Bool) (octAt : Nat → Int)
    (invAt : Nat → Nat) : List String → Nat → Nat → Nat → List MEv × Nat × Nat × PassExit
  | [], _, t, f => ([], t, f, PassExit.done)
  | chord :: rest, i, t, f =>
      if flag f then
        match chord_to_midi_notes chord (octAt t * 12) (invAt t) with
        | none => ([MEv.highlight i], t + 1, f + 1, PassExit.err)
        | some notes =>
            let chordEvs :=
              if block then
                MEv.highlight i ::
                  ((notes.map fun n => MEv.noteOn n vel) ++ (notes.map fun n => MEv.noteOff n))
              else
                MEv.highlight i :: (arpEvents vel flag notes (f + 1)).1
            let f1 := if block then f + 1 else (arpEvents vel flag notes (f + 1)).2
            let r := passAux vel block flag octAt invAt rest (i + 1) (t + 1) f1
            (chordEvs ++ r.1, r.2.1, r.2.2.1, r.2.2.2)
      else ([], t, f + 1, PassExit.flagBreak)

/-- The `while self.play_flag.is_set()` loop of `play_progression_loop`,
with `fuel` bounding the number of passes (`none` means the loop did not
exit within `fuel` passes).  On a raised exception the loop exits with the
events emitted so far; otherwise `if not loop: break` decides whether to
re-check the flag and run another pass. -/
def whileLoop (vel : Nat) (block loopB : Bool) (flag : Nat → Bool) (octAt : Nat → Int)
    (invAt : Nat → Nat) (prog : List String) : Nat → Nat → Nat → Option (List MEv)
  | 0, _, _ => none
  | fuel + 1, t, f =>
      if flag f then
        match passAux vel block flag octAt invAt prog 0 t (f + 1) with
        | (evs, _, _, PassExit.err) => some evs
        | (evs, t2, f2, PassExit.done) =>
            if loopB then
              (whileLoop vel block loopB flag octAt invAt prog fuel t2 f2).map
                fun more => evs ++ more
            else some evs
        | (evs, t2, f2, PassExit.flagBreak) =>
            if loopB then
              (whileLoop vel block loopB flag octAt invAt prog fuel t2 f2).map
                fun more => evs ++ more
            else some evs
      else some []

/-- Event trace of one run of `ChordApp.play_progression_loop`: the while
loop followed by the `finally` block, which always runs
`clear_highlight()`, then `MIDI.all_notes_off()`, then
`set_status('Ready')` — on cancellation, natural completion and raised
exceptions alike. -/
def play_progression_loop (fuel : Nat) (prog : List String) (vel : Nat) (block loopB : Bool)
    (flag : Nat → Bool) (octAt : Nat → Int) (invAt : Nat → Nat) : Option (List MEv) :=
  (whileLoop vel block loopB flag octAt invAt prog fuel 0 0).map
    fun evs => evs ++ [MEv.clearHighlight, MEv.allOff, MEv.setReady]

/-- Events of `ChordApp.on_stop`: besides clearing the flag and the
status text, the handler itself calls `MIDI.all_notes_off()`. -/
def onStopEvents : List MEv :=
  [MEv.allOff]

/-- The clamp never produces a negative pitch. -/
lemma clampPitch_nonneg (n : Int) : 0 ≤ clampPitch n :=
  le_max_left 0 _

/-- The clamp never produces a pitch above 127. -/
lemma clampPitch_le (n : Int) : clampPitch n ≤ 127 :=
  max_le (by norm_num) (min_le_left _ _)

/-- Clamping a pitch already in [0, 127] is the identity. -/
lemma clampPitch_of_bounds (n : Int) (h0 : 0 ≤ n) (h1 : n ≤ 127) : clampPitch n = n := by
  unfold clampPitch
  rw [min_eq_right h1, max_eq_right h0]

/-- Clamping a list of pitches already in [0, 127] is the identity. -/
lemma map_clampPitch_id (l : List Int) (h : ∀ n ∈ l, 0 ≤ n ∧ n ≤ 127) :
    l.map clampPitch = l := by
  induction l with
  | nil => rfl
  | cons a as ih =>
      have ha := h a (by simp)
      rw [List.map_cons, clampPitch_of_bounds a ha.1 ha.2,
        ih fun n hn => h n (by simp [hn])]

/-- A successful association-list lookup returns one of the stored values. -/
lemma lookup_mem_values {α β : Type} [BEq α] (l : List (α × β)) (k : α) (v : β)
    (h : l.lookup k = some v) : v ∈ l.map Prod.snd := by
  induction l with
  | nil => simp [List.lookup] at h
  | cons hd tl ih =>
      obtain ⟨a, b⟩ := hd
      simp only [List.lookup] at h
      split at h
      · simp_all
      · simpa using Or.inr (ih h)

/-- Every pitch class in `NOTE_TO_MIDI` lies in [60, 71], and so does the
fallback 60, hence every base pitch class does. -/
lemma rootPitchOf_bounds (root : String) : 60 ≤ rootPitchOf root ∧ rootPitchOf root ≤ 71 := by
  unfold rootPitchOf
  cases h : NOTE_TO_MIDI.lookup root with
  | none => simp
  | some v =>
      have hv := lookup_mem_values NOTE_TO_MIDI root v h
      simp only [NOTE_TO_MIDI, List.map_cons, List.map_nil, List.mem_cons,
        List.not_mem_nil, or_false] at hv
      rcases hv with rfl | rfl | rfl | rfl | rfl | rfl | rfl | rfl | rfl | rfl | rfl
        | rfl | rfl | rfl | rfl | rfl | rfl <;> simp

/-- `invertOnce` preserves the number of pitches. -/
lemma invertOnce_length (l : List Int) : (invertOnce l).length = l.length := by
  cases l <;> simp [invertOnce]

/-- The inversion rotation preserves the number of pitches. -/
lemma applyInversion_length (k : Nat) (l : List Int) :
    (applyInversion k l).length = l.length := by
  induction k generalizing l with
  | zero => rfl
  | succ n ih => rw [applyInversion, ih, invertOnce_length]

/-- Rotating `k ≤ length` times moves the first `k` pitches to the back,
each raised by an octave. -/
lemma applyInversion_rot (k : Nat) (l : List Int) (h : k ≤ l.length) :
    applyInversion k l = l.drop k ++ (l.take k).map (· + 12) := by
  induction k generalizing l with
  | zero => simp [applyInversion]
  | succ n ih =>
      cases l with
      | nil => simp at h
      | cons a rest =>
          have hn : n ≤ rest.length := by simpa using h
          rw [applyInversion, invertOnce, ih _ (by simpa using Nat.le_succ_of_le hn),
            List.drop_append_of_le_length hn, List.take_append_of_le_length hn]
          simp

/-- Rotating exactly `length` times transposes the whole voicing up one
octave, preserving order. -/
lemma applyInversion_full (l : List Int) :
    applyInversion l.length l = l.map (· + 12) := by
  rw [applyInversion_rot l.length l le_rfl]
  simp

/-- The interval selector always returns a non-empty voicing. -/
lemma selectIntervals_ne_nil (ctype : String) (r : Int) : selectIntervals ctype r ≠ [] := by
  unfold selectIntervals
  repeat' split
  all_goals simp

/-- Unfolding `chord_to_midi_notes` at octave 0, inversion 0 after a
successful parse. -/
lemma chord_to_midi_notes_parse (name : String) (rc : String × String)
    (h : parse_chord_name name = some rc) :
    chord_to_midi_notes name 0 0 =
      some ((selectIntervals rc.2 (rootPitchOf rc.1)).map clampPitch) := by
  simp [chord_to_midi_notes, h, applyInversion, rootPitchOf]

/-- A suffix that contains `dim` contains `m` (Python substring test). -/
lemma containsSub_m_of_dim (s : String) (h : containsSub ['d', 'i', 'm'] s = true) :
    containsSub ['m'] s = true := by
  unfold containsSub at h ⊢
  rw [List.any_eq_true] at h ⊢
  obtain ⟨t, ht, hp⟩ := h
  rcases t with _ | ⟨c1, t⟩
  · simp [beginsWith] at hp
  rcases t with _ | ⟨c2, t⟩
  · simp [beginsWith] at hp
  rcases t with _ | ⟨c3, rest⟩
  · simp [beginsWith] at hp
  simp only [beginsWith, Bool.and_eq_true, beq_iff_eq] at hp
  obtain ⟨rfl, rfl, rfl, -⟩ := hp
  refine ⟨'m' :: rest, ?_, by simp [beginsWith]⟩
  rw [List.mem_tails] at ht ⊢
  exact List.IsSuffix.trans ⟨['d', 'i'], rfl⟩ ht

/-- Accumulator law for the generation loop. -/
lemma genAux_acc (key : String) (pattern : List String) :
    ∀ fuel i acc, genAux key pattern fuel i acc = acc ++ genAux key pattern fuel i [] := by
  intro fuel
  induction fuel with
  | zero => intro i acc; simp [genAux]
  | succ n ih =>
      intro i acc
      rw [genAux, genAux, ih (i + 1),
        ih (i + 1) ([] ++ [roman_to_chord (pattern.getD (i % pattern.length) "") key])]
      simp

/-- The generation loop emits exactly `fuel` chords. -/
lemma genAux_length (key : String) (pattern : List String) :
    ∀ fuel i acc, (genAux key pattern fuel i acc).length = acc.length + fuel := by
  intro fuel
  induction fuel with
  | zero => intro i acc; simp [genAux]
  | succ n ih =>
      intro i acc
      rw [genAux, ih]
      simp
      omega

/-- Chord `j` of the generation loop started at index `i` is the chord
resolved from pattern position `(i + j) mod length`. -/
lemma genAux_getD (key : String) (pattern : List String) :
    ∀ fuel i j, j < fuel →
      (genAux key pattern fuel i []).getD j "" =
        roman_to_chord (pattern.getD ((i + j) % pattern.length) "") key := by
  intro fuel
  induction fuel with
  | zero => intro i j h; omega
  | succ n ih =>
      intro i j h
      rw [genAux, genAux_acc]
      cases j with
      | zero => simp
      | succ m =>
          have hm : m < n := by omega
          have : i + (m + 1) = (i + 1) + m := by omega
          rw [this, ← ih (i + 1) m hm]
          simp

/-- The arpeggio inner loop never emits `allNotesOff`. -/
lemma arpEvents_no_allOff (vel : Nat) (flag : Nat → Bool) :
    ∀ notes f, MEv.allOff ∉ (arpEvents vel flag notes f).1 := by
  intro notes
  induction notes with
  | nil => intro f; simp [arpEvents]
  | cons n rest ih =>
      intro f
      rw [arpEvents]
      split
      · simpa using ih (f + 1)
      · simp

/-- One pass of the playback loop never emits `allNotesOff`. -/
lemma passAux_no_allOff (vel : Nat) (block : Bool) (flag : Nat → Bool) (octAt : Nat → Int)
    (invAt : Nat → Nat) :
    ∀ prog i t f, MEv.allOff ∉ (passAux vel block flag octAt invAt prog i t f).1 := by
  intro prog
  induction prog with
  | nil => intro i t f; simp [passAux]
  | cons chord rest ih =>
      intro i t f
      rw [passAux]
      split
      · cases hn : chord_to_midi_notes chord (octAt t * 12) (invAt t) with
        | none => simp
        | some notes =>
            simp only [List.mem_append, List.mem_cons]
            intro hmem
            rcases hmem with hmem | hmem
            · split at hmem <;> simp only [List.mem_cons, List.mem_append, List.mem_map] at hmem
              · rcases hmem with h | h | h
                · exact absurd h (by simp)
                · obtain ⟨x, -, h⟩ := h; exact absurd h (by simp)
                · obtain ⟨x, -, h⟩ := h; exact absurd h (by simp)
              · rcases hmem with h | h
                · exact absurd h (by simp)
                · exact absurd h (arpEvents_no_allOff vel flag notes (f + 1))
            · exact absurd hmem (ih (i + 1) (t + 1) _)
      · simp

/-- Any terminating run of the while loop emits no `allNotesOff`; the only
one in a full trace comes from the `finally` block. -/
lemma whileLoop_no_allOff (vel : Nat) (block loopB : Bool) (flag : Nat → Bool)
    (octAt : Nat → Int) (invAt : Nat → Nat) (prog : List String) :
    ∀ fuel t f evs, whileLoop vel block loopB flag octAt invAt prog fuel t f = some evs →
      MEv.allOff ∉ evs := by
  intro fuel
  induction fuel with
  | zero => intro t f evs h; simp [whileLoop] at h
  | succ n ih =>
      intro t f evs h
      rw [whileLoop] at h
      split at h
      · split at h
        next evs1 t2 f2 heq =>
          rw [Option.some_inj] at h
          subst h
          have := passAux_no_allOff vel block flag octAt invAt prog 0 t (f + 1)
          rw [heq] at this
          exact this
        next evs1 t2 f2 heq =>
          have hpass := passAux_no_allOff vel block flag octAt invAt prog 0 t (f + 1)
          rw [heq] at hpass
          split at h
          · rw [Option.map_eq_some'] at h
            obtain ⟨more, hw, rfl⟩ := h
            simp only [List.mem_append, not_or]
            exact ⟨hpass, ih _ _ _ hw⟩
          · rw [Option.some_inj] at h
            subst h
            exact hpass
        next evs1 t2 f2 heq =>
          have hpass := passAux_no_allOff vel block flag octAt invAt prog 0 t (f + 1)
          rw [heq] at hpass
          split at h
          · rw [Option.map_eq_some'] at h
            obtain ⟨more, hw, rfl⟩ := h
            simp only [List.mem_append, not_or]
            exact ⟨hpass, ih _ _ _ hw⟩
          · rw [Option.some_inj] at h
            subst h
            exact hpass
      · rw [Option.some_inj] at h
        subst h
        simp

/-- C1: for every chord name, octave shift, and inversion count, every
pitch in the list returned by the voicing engine `chord_to_midi_notes`
lies within [0, 127]. -/
theorem C1_pitch_range (name : String) (oct : Int) (inv : Nat) (notes : List Int)
    (h : chord_to_midi_notes name oct inv = some notes) :
    ∀ n ∈ notes, 0 ≤ n ∧ n ≤ 127 := by
  rw [chord_to_midi_notes, Option.map_eq_some'] at h
  obtain ⟨rc, -, rfl⟩ := h
  intro n hn
  rw [List.mem_map] at hn
  obtain ⟨m, -, rfl⟩ := hn
  exact ⟨clampPitch_nonneg m, clampPitch_le m⟩

/-- Witness for C1 at the concrete chord "C". -/
theorem C1_pitch_range_witness :
    chord_to_midi_notes "C" 0 0 = some [60, 64, 67] ∧ (0 ≤ (60 : Int) ∧ (60 : Int) ≤ 127) :=
  ⟨by decide, C1_pitch_range "C" 0 0 [60, 64, 67] (by decide) 60 (by decide)⟩

/-- C4: the engine as invoked by the app (`voice chord s inv`, the call
sites pass `octave_var*12`) computes the base pitch as the
`NOTE_TO_MIDI` lookup of the parsed root plus `s*12`, expands intervals
and applies the inversion on the unclamped pitches, and clamps last. -/
theorem C4_voice_pipeline (chord : String) (s : Int) (inv : Nat) :
    voice chord s inv =
      (parse_chord_name chord).map fun rc =>
        (applyInversion inv
            (selectIntervals rc.2 ((NOTE_TO_MIDI.lookup rc.1).getD 60 + s * 12))).map
          clampPitch := rfl

/-- Counterexample to C5 as stated: on the empty chord name the Python
engine raises `IndexError` at `chord_name[0]` (modelled as `none`), so it
is not true that a voicing is returned for every input string. -/
theorem C5_cex : chord_to_midi_notes "" 0 0 = none := by decide

/-- C5 amended: for every NON-EMPTY chord-name string the engine returns
a (non-empty) voicing without raising; unparseable suffixes and roots
missing from `NOTE_TO_MIDI` fall back to defaults instead of failing. -/
theorem C5_no_raise (name : String) (oct : Int) (inv : Nat) (h : name ≠ "") :
    ∃ notes, chord_to_midi_notes name oct inv = some notes ∧ notes ≠ [] := by
  have hparse : ∃ rc, parse_chord_name name = some rc := by
    obtain ⟨data⟩ := name
    cases data with
    | nil => exact absurd rfl h
    | cons c cs =>
        cases cs with
        | nil => exact ⟨_, rfl⟩
        | cons c2 cs2 =>
            have hdef : parse_chord_name ⟨c :: c2 :: cs2⟩ =
                if c2 = '#' ∨ c2 = 'b' then some (⟨[c, c2]⟩, ⟨cs2⟩)
                else some (⟨[c]⟩, ⟨c2 :: cs2⟩) := rfl
            by_cases hc : c2 = '#' ∨ c2 = 'b'
            · rw [hdef, if_pos hc]; exact ⟨_, rfl⟩
            · rw [hdef, if_neg hc]; exact ⟨_, rfl⟩
  obtain ⟨rc, hrc⟩ := hparse
  refine ⟨_, by rw [chord_to_midi_notes, hrc, Option.map_some'], ?_⟩
  intro hnil
  have hlen := congrArg List.length hnil
  simp only [List.length_map, applyInversion_length, List.length_nil] at hlen
  exact selectIntervals_ne_nil rc.2 _ (List.length_eq_zero.mp hlen)

/-- Witness for C5 amended at the unknown root "H". -/
theorem C5_no_raise_witness : ("H" : String) ≠ "" ∧ chord_to_midi_notes "H" 0 0 ≠ none :=
  ⟨by decide, by
    obtain ⟨notes, hsome, -⟩ := C5_no_raise "H" 0 0 (by decide)
    simp [hsome]⟩

/-- Branch evaluation shared by the quality-selection results: a suffix
containing 'm' but neither 'maj' nor '7' takes the source's minor-triad
branch, and the clamp is the identity there. -/
lemma chord_minor_branch (name : String) (rc : String × String)
    (hp : parse_chord_name name = some rc)
    (hm : containsSub ['m'] rc.2 = true)
    (hmaj : containsSub ['m', 'a', 'j'] rc.2 = false)
    (h7 : containsSub ['7'] rc.2 = false) :
    chord_to_midi_notes name 0 0 =
      some [rootPitchOf rc.1, rootPitchOf rc.1 + 3, rootPitchOf rc.1 + 7] := by
  rw [chord_to_midi_notes_parse name rc hp]
  obtain ⟨hb1, hb2⟩ := rootPitchOf_bounds rc.1
  rw [show selectIntervals rc.2 (rootPitchOf rc.1) =
      [rootPitchOf rc.1, rootPitchOf rc.1 + 3, rootPitchOf rc.1 + 7] by
    simp [selectIntervals, hm, hmaj, h7]]
  rw [map_clampPitch_id _ (by
    intro n hn
    simp only [List.mem_cons, List.not_mem_nil, or_false] at hn
    rcases hn with rfl | rfl | rfl <;> omega)]

/-- Counterexample to C3 as stated: the claim's first branch ("suffix
contains 'm' and no '7' gives the minor triad") predicts [60, 63, 67] for
"Cmaj", but the source additionally excludes suffixes containing 'maj'
from that branch and returns the major triad [60, 64, 67]. -/
theorem C3_cex :
    chord_to_midi_notes "Cmaj" 0 0 = some [60, 64, 67] ∧
    selectIntervalsClaimed "maj" 60 = [60, 63, 67] ∧
    chord_to_midi_notes "Cmaj" 0 0 ≠
      some ((selectIntervalsClaimed "maj" 60).map clampPitch) := by
  refine ⟨by decide, by decide, by decide⟩

/-- C3 amended: the engine selects intervals by quality suffix in this
priority order — suffix containing 'm' but neither 'maj' nor '7' gives
the minor triad; a seventh-marked suffix gives the major seventh when it
contains 'maj' or 'M', the minor seventh when it contains 'm', and the
dominant seventh otherwise; everything else (including 'maj' without
'7') gives the major triad. -/
theorem C3_quality_selection :
    (∀ name rc, parse_chord_name name = some rc →
      containsSub ['m'] rc.2 = true → containsSub ['m', 'a', 'j'] rc.2 = false →
      containsSub ['7'] rc.2 = false →
      chord_to_midi_notes name 0 0 =
        some [rootPitchOf rc.1, rootPitchOf rc.1 + 3, rootPitchOf rc.1 + 7]) ∧
    (∀ name rc, parse_chord_name name = some rc →
      containsSub ['m', 'a', 'j'] rc.2 = true → containsSub ['7'] rc.2 = false →
      chord_to_midi_notes name 0 0 =
        some [rootPitchOf rc.1, rootPitchOf rc.1 + 4, rootPitchOf rc.1 + 7]) ∧
    (∀ name rc, parse_chord_name name = some rc →
      containsSub ['7'] rc.2 = true →
      (containsSub ['m', 'a', 'j'] rc.2 = true ∨ containsSub ['M'] rc.2 = true) →
      chord_to_midi_notes name 0 0 =
        some [rootPitchOf rc.1, rootPitchOf rc.1 + 4, rootPitchOf rc.1 + 7,
          rootPitchOf rc.1 + 11]) ∧
    (∀ name rc, parse_chord_name name = some rc →
      containsSub ['7'] rc.2 = true → containsSub ['m', 'a', 'j'] rc.2 = false →
      containsSub ['M'] rc.2 = false → containsSub ['m'] rc.2 = true →
      chord_to_midi_notes name 0 0 =
        some [rootPitchOf rc.1, rootPitchOf rc.1 + 3, rootPitchOf rc.1 + 7,
          rootPitchOf rc.1 + 10]) ∧
    (∀ name rc, parse_chord_name name = some rc →
      containsSub ['7'] rc.2 = true → containsSub ['m', 'a', 'j'] rc.2 = false →
      containsSub ['M'] rc.2 = false → containsSub ['m'] rc.2 = false →
      chord_to_midi_notes name 0 0 =
        some [rootPitchOf rc.1, rootPitchOf rc.1 + 4, rootPitchOf rc.1 + 7,
          rootPitchOf rc.1 + 10]) ∧
    (∀ name rc, parse_chord_name name = some rc →
      containsSub ['m'] rc.2 = false → containsSub ['7'] rc.2 = false →
      chord_to_midi_notes name 0 0 =
        some [rootPitchOf rc.1, rootPitchOf rc.1 + 4, rootPitchOf rc.1 + 7]) := by
  refine ⟨?_, ?_, ?_, ?_, ?_, ?_⟩ <;> intro name rc hp
  · intro hm hmaj h7
    exact chord_minor_branch name rc hp hm hmaj h7
  · intro hmaj h7
    rw [chord_to_midi_notes_parse name rc hp]
    obtain ⟨hb1, hb2⟩ := rootPitchOf_bounds rc.1
    rw [show selectIntervals rc.2 (rootPitchOf rc.1) =
        [rootPitchOf rc.1, rootPitchOf rc.1 + 4, rootPitchOf rc.1 + 7] by
      simp [selectIntervals, hmaj, h7]]
    rw [map_clampPitch_id _ (by
      intro n hn
      simp only [List.mem_cons, List.not_mem_nil, or_false] at hn
      rcases hn with rfl | rfl | rfl <;> omega)]
  · intro h7 hMaj
    rw [chord_to_midi_notes_parse name rc hp]
    obtain ⟨hb1, hb2⟩ := rootPitchOf_bounds rc.1
    rw [show selectIntervals rc.2 (rootPitchOf rc.1) =
        [rootPitchOf rc.1, rootPitchOf rc.1 + 4, rootPitchOf rc.1 + 7,
          rootPitchOf rc.1 + 11] by
      rcases hMaj with hmaj | hM
      · simp [selectIntervals, h7, hmaj]
      · simp [selectIntervals, h7, hM]]
    rw [map_clampPitch_id _ (by
      intro n hn
      simp only [List.mem_cons, List.not_mem_nil, or_false] at hn
      rcases hn with rfl | rfl | rfl | rfl <;> omega)]
  · intro h7 hmaj hM hm
    rw [chord_to_midi_notes_parse name rc hp]
    obtain ⟨hb1, hb2⟩ := rootPitchOf_bounds rc.1
    rw [show selectIntervals rc.2 (rootPitchOf rc.1) =
        [rootPitchOf rc.1, rootPitchOf rc.1 + 3, rootPitchOf rc.1 + 7,
          rootPitchOf rc.1 + 10] by
      simp [selectIntervals, h7, hmaj, hM, hm]]
    rw [map_clampPitch_id _ (by
      intro n hn
      simp only [List.mem_cons, List.not_mem_nil, or_false] at hn
      rcases hn with rfl | rfl | rfl | rfl <;> omega)]
  · intro h7 hmaj hM hm
    rw [chord_to_midi_notes_parse name rc hp]
    obtain ⟨hb1, hb2⟩ := rootPitchOf_bounds rc.1
    rw [show selectIntervals rc.2 (rootPitchOf rc.1) =
        [rootPitchOf rc.1, rootPitchOf rc.1 + 4, rootPitchOf rc.1 + 7,
          rootPitchOf rc.1 + 10] by
      simp [selectIntervals, h7, hmaj, hM, hm]]
    rw [map_clampPitch_id _ (by
      intro n hn
      simp only [List.mem_cons, List.not_mem_nil, or_false] at hn
      rcases hn with rfl | rfl | rfl | rfl <;> omega)]
  · intro hm h7
    rw [chord_to_midi_notes_parse name rc hp]
    obtain ⟨hb1, hb2⟩ := rootPitchOf_bounds rc.1
    rw [show selectIntervals rc.2 (rootPitchOf rc.1) =
        [rootPitchOf rc.1, rootPitchOf rc.1 + 4, rootPitchOf rc.1 + 7] by
      simp [selectIntervals, hm, h7]]
    rw [map_clampPitch_id _ (by
      intro n hn
      simp only [List.mem_cons, List.not_mem_nil, or_false] at hn
      rcases hn with rfl | rfl | rfl <;> omega)]

/-- Witness for C3 amended at the concrete chord "Am" (minor branch). -/
theorem C3_quality_selection_witness :
    parse_chord_name "Am" = some ("A", "m") ∧ chord_to_midi_notes "Am" 0 0 = some [69, 72, 76] :=
  ⟨by decide, by
    have h := C3_quality_selection.1 "Am" ("A", "m") (by decide) (by decide) (by decide)
      (by decide)
    rw [h]
    decide⟩

/-- Counterexample to C10 as stated: a suffix may contain 'dim' and no
'7' yet also contain 'maj' (e.g. "Cdimmaj"); the source then skips the
minor-triad branch (which requires no 'maj') and returns the major
triad, not [root, root+3, root+7]. -/
theorem C10_cex :
    containsSub ['d', 'i', 'm'] "dimmaj" = true ∧
    containsSub ['7'] "dimmaj" = false ∧
    parse_chord_name "Cdimmaj" = some ("C", "dimmaj") ∧
    chord_to_midi_notes "Cdimmaj" 0 0 = some [60, 64, 67] ∧
    ([(60 : Int), 64, 67] : List Int) ≠ [60, 63, 67] := by
  refine ⟨by decide, by decide, by decide, by decide, by decide⟩

/-- C10 amended: for every chord whose quality suffix contains 'dim' but
neither '7' nor 'maj', the engine returns the minor-triad pitches
[root, root+3, root+7] — not a diminished triad [root, root+3, root+6]
with a flatted fifth ('dim' lands in the minor branch because it contains
the letter 'm'). -/
theorem C10_dim_minor (name : String) (rc : String × String)
    (hp : parse_chord_name name = some rc)
    (hdim : containsSub ['d', 'i', 'm'] rc.2 = true)
    (h7 : containsSub ['7'] rc.2 = false)
    (hmaj : containsSub ['m', 'a', 'j'] rc.2 = false) :
    chord_to_midi_notes name 0 0 =
      some [rootPitchOf rc.1, rootPitchOf rc.1 + 3, rootPitchOf rc.1 + 7] ∧
    chord_to_midi_notes name 0 0 ≠
      some [rootPitchOf rc.1, rootPitchOf rc.1 + 3, rootPitchOf rc.1 + 6] := by
  have hm := containsSub_m_of_dim rc.2 hdim
  have heq := chord_minor_branch name rc hp hm hmaj h7
  refine ⟨heq, ?_⟩
  rw [heq]
  intro hcontra
  rw [Option.some_inj] at hcontra
  simp only [List.cons.injEq, and_true] at hcontra
  omega

/-- Witness for C10 amended at the concrete chord "Bdim". -/
theorem C10_dim_minor_witness :
    parse_chord_name "Bdim" = some ("B", "dim") ∧
    chord_to_midi_notes "Bdim" 0 0 = some [71, 74, 78] :=
  ⟨by decide, by
    have h := (C10_dim_minor "Bdim" ("B", "dim") (by decide) (by decide) (by decide)
      (by decide)).1
    rw [h]
    decide⟩

/-- Counterexample to C2 as stated: at octave shift 5 the chord "C" has
base pitches [120, 124, 127] after clamping, but rotating the voicing 3
times pushes every pitch past 127 and the final clamp returns
[127, 127, 127], which is not the inversion-0 list raised by 12. -/
theorem C2_cex :
    voice "C" 5 0 = some [120, 124, 127] ∧
    voice "C" 5 3 = some [127, 127, 127] ∧
    voice "C" 5 3 ≠ (voice "C" 5 0).map fun l => l.map fun n => n + 12 := by
  refine ⟨by decide, by decide, by decide⟩

/-- C2 amended: whenever every unclamped base pitch of the voicing lies
in [0, 115] (so that neither the original nor the octave-raised pitches
are clamped — true for all table roots and UI octave shifts), applying
inversion equal to the voicing's note count (3 for triads, 4 for
sevenths) returns exactly the inversion-0 pitch list with every pitch
raised by 12 semitones, order preserved. -/
theorem C2_inversion_cycle (name : String) (s : Int) (rc : String × String)
    (hp : parse_chord_name name = some rc)
    (hb : ∀ n ∈ selectIntervals rc.2 ((NOTE_TO_MIDI.lookup rc.1).getD 60 + s * 12),
      0 ≤ n ∧ n + 12 ≤ 127) :
    voice name s (selectIntervals rc.2 ((NOTE_TO_MIDI.lookup rc.1).getD 60 + s * 12)).length =
      (voice name s 0).map fun l => l.map fun n => n + 12 := by
  set base := selectIntervals rc.2 ((NOTE_TO_MIDI.lookup rc.1).getD 60 + s * 12) with hbase
  have hzero : voice name s 0 = some (base.map clampPitch) := by
    rw [voice, chord_to_midi_notes, hp, Option.map_some']
    rfl
  have hclamp : base.map clampPitch = base :=
    map_clampPitch_id base fun n hn => ⟨(hb n hn).1, by have := (hb n hn).2; omega⟩
  have hfull : voice name s base.length = some ((base.map fun n => n + 12).map clampPitch) := by
    rw [voice, chord_to_midi_notes, hp, Option.map_some']
    congr 1
    rw [← applyInversion_full base]
  rw [hfull, hzero, Option.map_some', hclamp]
  congr 1
  exact map_clampPitch_id _ fun m hm => by
    rw [List.mem_map] at hm
    obtain ⟨n, hn, rfl⟩ := hm
    exact ⟨by have := (hb n hn).1; omega, (hb n hn).2⟩

/-- Witness for C2 amended at "C" with octave shift 0. -/
theorem C2_inversion_cycle_witness :
    parse_chord_name "C" = some ("C", "") ∧
    voice "C" 0 (selectIntervals "" ((NOTE_TO_MIDI.lookup "C").getD 60 + 0 * 12)).length =
      (voice "C" 0 0).map fun l => l.map fun n => n + 12 :=
  ⟨by decide, C2_inversion_cycle "C" 0 ("C", "") (by decide) (by decide)⟩

/-- C6: for every key, style, bar count and random pattern choice,
`generate_progression` returns exactly `bars` chords, chord `i` is the
roman-numeral resolution of `pattern[i mod len(pattern)]` against the
key, and an unknown style falls back to the default 'Pop' pattern set.
The uniformly random `random.choice` is modelled by the arbitrary index
`pick`: the result holds for every possible choice. -/
theorem C6_generate (key style : String) (bars pick : Nat) :
    (generate_progression key style bars pick).length = bars ∧
    (∀ i, i < bars →
      (generate_progression key style bars pick).getD i "" =
        roman_to_chord
          (((patternsFor style).getD (pick % (patternsFor style).length) []).getD
            (i % ((patternsFor style).getD (pick % (patternsFor style).length) []).length) "")
          key) ∧
    (COMMON_PATTERNS.lookup style = none →
      generate_progression key style bars pick = generate_progression key "Pop" bars pick) := by
  refine ⟨?_, ?_, ?_⟩
  · simp only [generate_progression]
    rw [genAux_length]
    simp
  · intro i hi
    simp only [generate_progression]
    rw [genAux_getD _ _ bars 0 i hi]
    simp
  · intro h
    simp only [generate_progression, patternsFor, h, Option.getD_none]
    rfl

/-- Witness for C6 at key "C", style "Pop", one bar, first pattern. -/
theorem C6_generate_witness :
    (0 : Nat) < 1 ∧ (generate_progression "C" "Pop" 1 0).getD 0 "" = "C" :=
  ⟨by decide, by
    have h := (C6_generate "C" "Pop" 1 0).2.1 0 (by decide)
    rw [h]
    decide⟩

/-- Counterexample to C7 as stated: upper- and lower-case numeral
spellings are NOT aliases of the same index for every degree — the table
lacks 'iv' (and 'i', 'v', 'vii'), so "iv" falls into the unknown-token
fallback (index 0, the tonic) while "IV" resolves to index 3. -/
theorem C7_cex :
    ROMAN_TO_INDEX.lookup "iv" = none ∧
    roman_to_chord "iv" "C" = "C" ∧
    roman_to_chord "IV" "C" = "F" ∧
    ("C" : String) ≠ "F" := by
  refine ⟨by decide, by decide, by decide, by decide⟩

/-- C7 amended: `roman_to_chord` strips the diminished marker, detects a
trailing '7', and maps the remaining token via `ROMAN_TO_INDEX`; the
case-alias property holds exactly for the spellings the table pairs
(ii/II, iii/III, vi/VI — not i/iv/v/vii, whose lowercase forms fall back
to index 0); unknown tokens resolve to index 0, unknown keys resolve to
the default key C's row, and '7' is appended exactly when the seventh
flag was set. -/
theorem C7_roman_resolution :
    (∀ key, roman_to_chord "ii" key = roman_to_chord "II" key ∧
      roman_to_chord "iii" key = roman_to_chord "III" key ∧
      roman_to_chord "vi" key = roman_to_chord "VI" key) ∧
    (∀ roman key, ROMAN_TO_INDEX.lookup (romanToken roman).2 = none →
      roman_to_chord roman key =
        if (romanToken roman).1 then
          (((DIATONIC_MAJOR.lookup key).getD diatonicC).getD 0 "") ++ "7"
        else ((DIATONIC_MAJOR.lookup key).getD diatonicC).getD 0 "") ∧
    (∀ roman key, DIATONIC_MAJOR.lookup key = none →
      roman_to_chord roman key = roman_to_chord roman "C") ∧
    (∀ roman key, (romanToken roman).1 = true →
      roman_to_chord roman key =
        (((DIATONIC_MAJOR.lookup key).getD diatonicC).getD
          ((ROMAN_TO_INDEX.lookup (romanToken roman).2).getD 0) "") ++ "7") ∧
    (∀ roman key, (romanToken roman).1 = false →
      roman_to_chord roman key =
        ((DIATONIC_MAJOR.lookup key).getD diatonicC).getD
          ((ROMAN_TO_INDEX.lookup (romanToken roman).2).getD 0) "") := by
  refine ⟨?_, ?_, ?_, ?_, ?_⟩
  · intro key
    exact ⟨rfl, rfl, rfl⟩
  · intro roman key h
    simp only [roman_to_chord, h, Option.getD_none]
  · intro roman key h
    simp only [roman_to_chord, h, Option.getD_none]
    rfl
  · intro roman key h
    simp [roman_to_chord, h]
  · intro roman key h
    simp [roman_to_chord, h]

/-- Witness for C7 amended: the unknown token "iv" resolves to the tonic
of the requested key. -/
theorem C7_roman_resolution_witness :
    ROMAN_TO_INDEX.lookup (romanToken "iv").2 = none ∧ roman_to_chord "iv" "G" = "G" :=
  ⟨by decide, by
    have h := C7_roman_resolution.2.1 "iv" "G" (by decide)
    rw [h]
    decide⟩

/-- Counterexample to C8 as stated: in a session ended by a stop request
the Sink's `allNotesOff` runs TWICE, not exactly once — once directly in
`on_stop` (line 466) and once in the playback loop's `finally` block
(line 513).  Shown on a concrete one-chord session whose flag is cleared
after the first while-check. -/
theorem C8_cex :
    ((play_progression_loop 1 ["C"] 100 true false (fun n => n == 0) (fun _ => 0)
        (fun _ => 0)).getD [] ++ onStopEvents).count MEv.allOff = 2 := by
  decide

/-- C8 amended: on every exit from the Playing state — cancellation,
natural completion, or a raised exception — the playback loop itself
invokes `allNotesOff` exactly once, in its `finally` cleanup, after
clearing the active-highlight indicator and before reporting Ready; a
session ended by a stop request additionally gets the stop handler's own
direct `allNotesOff`, for two invocations in total. -/
theorem C8_cleanup (fuel : Nat) (prog : List String) (vel : Nat) (block loopB : Bool)
    (flag : Nat → Bool) (octAt : Nat → Int) (invAt : Nat → Nat) (tr : List MEv)
    (h : play_progression_loop fuel prog vel block loopB flag octAt invAt = some tr) :
    (∃ body, tr = body ++ [MEv.clearHighlight, MEv.allOff, MEv.setReady] ∧
      MEv.allOff ∉ body) ∧
    tr.count MEv.allOff = 1 ∧
    (tr ++ onStopEvents).count MEv.allOff = 2 := by
  rw [play_progression_loop, Option.map_eq_some'] at h
  obtain ⟨body, hw, rfl⟩ := h
  have hnot := whileLoop_no_allOff vel block loopB flag octAt invAt prog fuel 0 0 body hw
  have hcount : (body ++ [MEv.clearHighlight, MEv.allOff, MEv.setReady]).count MEv.allOff = 1 := by
    rw [List.count_append, List.count_eq_zero.mpr hnot]
    decide
  refine ⟨⟨body, rfl, hnot⟩, hcount, ?_⟩
  rw [List.count_append, hcount]
  decide

/-- Witness for C8 amended on a concrete cancelled session. -/
theorem C8_cleanup_witness :
    play_progression_loop 1 ["C"] 100 true false (fun _ => false) (fun _ => 0) (fun _ => 0) =
      some [MEv.clearHighlight, MEv.allOff, MEv.setReady] ∧
    ([MEv.clearHighlight, MEv.allOff, MEv.setReady].count MEv.allOff = 1 ∧
      ([MEv.clearHighlight, MEv.allOff, MEv.setReady] ++ onStopEvents).count MEv.allOff = 2) :=
  ⟨by decide, by
    have h := C8_cleanup 1 ["C"] 100 true false (fun _ => false) (fun _ => 0) (fun _ => 0)
      [MEv.clearHighlight, MEv.allOff, MEv.setReady] (by decide)
    exact ⟨h.2.1, h.2.2⟩⟩

/-- C9: the claim that all playback parameters are frozen in a single
snapshot at playback start is violated by the code — `octave_var` and
`inversion_var` are re-read from the live Tk variables at every chord
(line 488), so changing the octave between chord 0 and chord 1 of one
pass changes the notes emitted in that same pass.  The two runs below
share identical parameters at playback start (both octave functions
return 0 at read 0) and differ only in the mid-pass value, yet their
event traces differ. -/
theorem C9_snapshot_violated :
    ((fun _ : Nat => (0 : Int)) 0 = (fun t : Nat => if t = 0 then (0 : Int) else 1) 0) ∧
    play_progression_loop 1 ["C", "C"] 100 true false (fun _ => true) (fun _ => 0)
        (fun _ => 0) ≠
      play_progression_loop 1 ["C", "C"] 100 true false (fun _ => true)
        (fun t => if t = 0 then 0 else 1) (fun _ => 0) := by
  refine ⟨by decide, by decide⟩
